import Mathlib

/-!
Verification of the htmlquery tree navigator and tree projection helpers.

The DOM tree of golang.org/x/net/html is a pointer structure: each html.Node
holds Parent, FirstChild, NextSibling, PrevSibling pointers, a Type, a Data
string and an Attr list. We embed the pointer structure as an arena: a
document is a list of nodes, a pointer is an optional index into that list,
and pointer equality of the Go program is index equality here. The navigator
(htmlquery.NodeNavigator) is a triple of a root index, a current index and an
attribute index, exactly as in the source.
-/

set_option autoImplicit false

namespace Htmlquery

/-- Node kinds of golang.org/x/net/html (html.NodeType). ErrorNode and
RawNode exist in the Go library but are never produced for parsed documents;
the navigator panics on them. -/
inductive HtmlNodeType where
  | ErrorNode
  | TextNode
  | DocumentNode
  | ElementNode
  | CommentNode
  | DoctypeNode
  | RawNode
deriving DecidableEq

/-- One attribute of html.Node.Attr: a key and a value (namespace omitted,
the navigator never reads it). -/
structure Attribute where
  key : String
  val : String
deriving DecidableEq

/-- html.Node with its pointers replaced by optional arena indices. -/
structure HtmlNode where
  type : HtmlNodeType
  data : String
  attr : List Attribute
  parent : Option Nat
  firstChild : Option Nat
  nextSibling : Option Nat
  prevSibling : Option Nat
deriving DecidableEq

/-- An arena of nodes; a node pointer is an index into this list. -/
abbrev Doc := List HtmlNode

/-- Node categories of the antchfx/xpath engine (xpath.NodeType), as far as
the navigator produces them. -/
inductive XNodeType where
  | RootNode
  | ElementNode
  | AttributeNode
  | TextNode
  | CommentNode
deriving DecidableEq

/-- htmlquery.NodeNavigator: root and curr are node pointers (arena
indices), attr is the attribute index, -1 when the cursor denotes the node
itself. -/
structure NodeNavigator where
  root : Nat
  curr : Nat
  attr : Int
deriving DecidableEq

/-- CreateXPathNavigator: cursor with curr = root = top and attr = -1. -/
def CreateXPathNavigator (top : Nat) : NodeNavigator :=
  { root := top, curr := top, attr := -1 }

/-- Kind of the node a pointer denotes, when the pointer is valid. -/
def nodeTypeAt (doc : Doc) (i : Nat) : Option HtmlNodeType :=
  (doc[i]?).map (fun n => n.type)

/-- Current: returns h.curr, the owning element even while attr is not -1. -/
def Current (h : NodeNavigator) : Nat :=
  h.curr

/-- NodeType of the navigator. The Go method panics on a node kind outside
the five recognized ones; we model the panic as none. Dereferencing an
invalid curr pointer would also panic in Go, likewise none here. -/
def NodeType (doc : Doc) (h : NodeNavigator) : Option XNodeType :=
  match doc[h.curr]? with
  | none => none
  | some n =>
    match n.type with
    | HtmlNodeType.CommentNode => some XNodeType.CommentNode
    | HtmlNodeType.TextNode => some XNodeType.TextNode
    | HtmlNodeType.DocumentNode => some XNodeType.RootNode
    | HtmlNodeType.ElementNode =>
        if h.attr ≠ -1 then some XNodeType.AttributeNode
        else some XNodeType.ElementNode
    | HtmlNodeType.DoctypeNode => some XNodeType.RootNode
    | _ => none

/-- MoveToRoot: the source sets curr to root and nothing else; in
particular attr is left as it is. There is no failure result. -/
def MoveToRoot (h : NodeNavigator) : NodeNavigator :=
  { h with curr := h.root }

/-- MoveToParent: first clears a pending attribute selection, else follows
the Parent pointer, else fails unchanged. -/
def MoveToParent (doc : Doc) (h : NodeNavigator) : NodeNavigator × Bool :=
  if h.attr ≠ -1 then ({ h with attr := -1 }, true)
  else
    match (doc[h.curr]?).bind (fun n => n.parent) with
    | some p => ({ h with curr := p }, true)
    | none => (h, false)

/-- MoveToNextAttribute: fails when attr is at or past the last attribute of
the current node, else increments attr. An invalid curr pointer would panic
in Go; such states are unreachable, we let the move fail there. -/
def MoveToNextAttribute (doc : Doc) (h : NodeNavigator) : NodeNavigator × Bool :=
  match doc[h.curr]? with
  | none => (h, false)
  | some n =>
    if h.attr ≥ (n.attr.length : Int) - 1 then (h, false)
    else ({ h with attr := h.attr + 1 }, true)

/-- MoveToChild: fails on an attribute pseudo-node, else follows the
FirstChild pointer if present. -/
def MoveToChild (doc : Doc) (h : NodeNavigator) : NodeNavigator × Bool :=
  if h.attr ≠ -1 then (h, false)
  else
    match (doc[h.curr]?).bind (fun n => n.firstChild) with
    | some c => ({ h with curr := c }, true)
    | none => (h, false)

/-- One step along the PrevSibling pointer. -/
def prevStep (doc : Doc) (i : Nat) : Option Nat :=
  (doc[i]?).bind (fun n => n.prevSibling)

/-- Walks PrevSibling pointers to exhaustion, as the loop in MoveToFirst
does. The fuel argument bounds the walk so that the definition is total; on
a genuine tree the sibling chain is acyclic and shorter than the arena, so
fuel = doc.length is never exhausted and the walk stops at the pointer that
is none, exactly as the Go loop does. -/
def firstSiblingAux (doc : Doc) : Nat → Nat → Nat
  | 0, c => c
  | fuel + 1, c =>
    match prevStep doc c with
    | none => c
    | some p => firstSiblingAux doc fuel p

/-- MoveToFirst: fails when attr is not -1 or there is no preceding sibling,
else walks PrevSibling links to exhaustion. -/
def MoveToFirst (doc : Doc) (h : NodeNavigator) : NodeNavigator × Bool :=
  if h.attr ≠ -1 ∨ prevStep doc h.curr = none then (h, false)
  else ({ h with curr := firstSiblingAux doc doc.length h.curr }, true)

/-- MoveToNext: fails on an attribute pseudo-node, else follows the
NextSibling pointer if present. -/
def MoveToNext (doc : Doc) (h : NodeNavigator) : NodeNavigator × Bool :=
  if h.attr ≠ -1 then (h, false)
  else
    match (doc[h.curr]?).bind (fun n => n.nextSibling) with
    | some s => ({ h with curr := s }, true)
    | none => (h, false)

/-- MoveToPrevious: fails on an attribute pseudo-node, else follows the
PrevSibling pointer if present. -/
def MoveToPrevious (doc : Doc) (h : NodeNavigator) : NodeNavigator × Bool :=
  if h.attr ≠ -1 then (h, false)
  else
    match prevStep doc h.curr with
    | some s => ({ h with curr := s }, true)
    | none => (h, false)

/-- MoveTo: the Go method first checks that the other navigator is a
NodeNavigator over the same root pointer; in this embedding every navigator
is a NodeNavigator, so the check is root equality (index equality models Go
pointer equality). On success curr and attr are adopted, root is kept. -/
def MoveTo (h other : NodeNavigator) : NodeNavigator × Bool :=
  if other.root ≠ h.root then (h, false)
  else ({ h with curr := other.curr, attr := other.attr }, true)

/-- The single-cursor move operations of the navigator contract. MoveTo
takes a second cursor and is treated separately. -/
inductive NavOp where
  | toRoot
  | toParent
  | toNextAttribute
  | toChild
  | toFirst
  | toNext
  | toPrevious
deriving DecidableEq

/-- Applies one move operation to the cursor, keeping the resulting state
and dropping the success flag. -/
def applyOp (doc : Doc) (op : NavOp) (h : NodeNavigator) : NodeNavigator :=
  match op with
  | NavOp.toRoot => MoveToRoot h
  | NavOp.toParent => (MoveToParent doc h).1
  | NavOp.toNextAttribute => (MoveToNextAttribute doc h).1
  | NavOp.toChild => (MoveToChild doc h).1
  | NavOp.toFirst => (MoveToFirst doc h).1
  | NavOp.toNext => (MoveToNext doc h).1
  | NavOp.toPrevious => (MoveToPrevious doc h).1

/-- Runs a sequence of move operations from a starting cursor. -/
def runOps (doc : Doc) (ops : List NavOp) (h : NodeNavigator) : NodeNavigator :=
  match ops with
  | [] => h
  | op :: rest => runOps doc rest (applyOp doc op h)

/-- The cursor invariant stated by the specification: the attribute index is
non -1 only while the current node is an element. -/
def Inv (doc : Doc) (h : NodeNavigator) : Prop :=
  h.attr ≠ -1 → nodeTypeAt doc h.curr = some HtmlNodeType.ElementNode

instance (doc : Doc) (h : NodeNavigator) : Decidable (Inv doc h) := by
  unfold Inv
  infer_instance

/-- A document is attribute-clean when only element nodes carry attributes.
Documents produced by the HTML parser for attribute purposes behave this
way from the point of view of the navigator claims. -/
def AttrClean (doc : Doc) : Prop :=
  ∀ n ∈ doc, n.attr ≠ [] → n.type = HtmlNodeType.ElementNode

instance (doc : Doc) : Decidable (AttrClean doc) := by
  unfold AttrClean
  infer_instance

/-- Arena for the document <html><b attr="1"></b></html> reduced to the two
nodes the navigator claims need: node 0 is the document node, node 1 is the
element b with one attribute. -/
def exDoc : Doc :=
  [ { type := HtmlNodeType.DocumentNode, data := "", attr := [],
      parent := none, firstChild := some 1, nextSibling := none,
      prevSibling := none },
    { type := HtmlNodeType.ElementNode, data := "b",
      attr := [{ key := "attr", val := "1" }],
      parent := some 0, firstChild := none, nextSibling := none,
      prevSibling := none } ]

/-- Arena with a three-node sibling chain under a document node: node 1,
node 2, node 3 are siblings in document order. -/
def sibDoc : Doc :=
  [ { type := HtmlNodeType.DocumentNode, data := "", attr := [],
      parent := none, firstChild := some 1, nextSibling := none,
      prevSibling := none },
    { type := HtmlNodeType.ElementNode, data := "a", attr := [],
      parent := some 0, firstChild := none, nextSibling := some 2,
      prevSibling := none },
    { type := HtmlNodeType.ElementNode, data := "b", attr := [],
      parent := some 0, firstChild := none, nextSibling := some 3,
      prevSibling := some 1 },
    { type := HtmlNodeType.ElementNode, data := "c", attr := [],
      parent := some 0, firstChild := none, nextSibling := none,
      prevSibling := some 2 } ]

/-!
Tree view of the document for the recursive projection helpers. InnerText
and OutputHTML recurse over child lists, so for them we embed html.Node as
an inductive tree: a node with its kind, its Data string, its attributes
and its children in document order.
-/

/-- A DOM node as a tree, for the projection helpers. -/
inductive HTree where
  | node (type : HtmlNodeType) (data : String) (attr : List Attribute)
      (children : List HTree)

/-- Children accessor for HTree. -/
def HTree.children : HTree → List HTree
  | HTree.node _ _ _ cs => cs

mutual

/-- InnerText: a text node contributes its Data and stops, a comment node
contributes nothing and its subtree is skipped, every other kind recurses
over the children in order, writing into one buffer. -/
def InnerText : HTree → String
  | HTree.node t d _ cs =>
    match t with
    | HtmlNodeType.TextNode => d
    | HtmlNodeType.CommentNode => ""
    | _ => innerTextList cs

/-- InnerText of a child list, concatenated left to right as the loop over
FirstChild and NextSibling does. -/
def innerTextList : List HTree → String
  | [] => ""
  | c :: cs => InnerText c ++ innerTextList cs

end

/-- Concatenation of a list of strings in order, used as the reference form
for the text-extraction claim. -/
def concatStrings : List String → String
  | [] => ""
  | s :: l => s ++ concatStrings l

mutual

/-- Reference projection following the words of the specification: the Data
of every Text-kind node of the subtree, in document order, with Comment
subtrees skipped entirely and Element nodes contributing no markup. -/
def collectText : HTree → List String
  | HTree.node t d _ cs =>
    match t with
    | HtmlNodeType.TextNode => [d]
    | HtmlNodeType.CommentNode => []
    | _ => collectTextList cs

/-- Text data of a forest in document order. -/
def collectTextList : List HTree → List String
  | [] => []
  | c :: cs => collectText c ++ collectTextList cs

end

/-- True exactly for comment nodes. -/
def HTree.isComment : HTree → Bool
  | HTree.node t _ _ _ => t == HtmlNodeType.CommentNode

mutual

/-- Removes every comment node, with its whole subtree, from a tree. -/
def pruneComments : HTree → HTree
  | HTree.node t d a cs => HTree.node t d a (pruneList cs)

/-- Removes comment nodes from a forest. -/
def pruneList : List HTree → List HTree
  | [] => []
  | c :: cs =>
    if c.isComment then pruneList cs
    else pruneComments c :: pruneList cs

end

/-- Rendering of an attribute list as markup. Modelled from the spec: the
serializer is the external html.Render collaborator; the spec asks for a
syntactic round-trip to markup text. -/
def renderAttrs : List Attribute → String
  | [] => ""
  | a :: rest => " " ++ a.key ++ "=\x22" ++ a.val ++ "\x22" ++ renderAttrs rest

mutual

/-- Modelled from the spec: the external serializer html.Render renders a
node back to markup text, reproducing comments verbatim; elements render
their tag around their serialized children, a document renders its children,
a doctype renders its declaration, text renders its data. -/
def Render : HTree → String
  | HTree.node t d a cs =>
    match t with
    | HtmlNodeType.TextNode => d
    | HtmlNodeType.CommentNode => "<!--" ++ d ++ "-->"
    | HtmlNodeType.ElementNode =>
        "<" ++ d ++ renderAttrs a ++ ">" ++ renderList cs ++ "</" ++ d ++ ">"
    | HtmlNodeType.DocumentNode => renderList cs
    | HtmlNodeType.DoctypeNode => "<!DOCTYPE " ++ d ++ ">"
    | _ => ""

/-- Serialization of a forest in document order. -/
def renderList : List HTree → String
  | [] => ""
  | c :: cs => Render c ++ renderList cs

end

/-- OutputHTML: with self = true renders the node itself, with self = false
renders only its children in order. -/
def OutputHTML (t : HTree) (self : Bool) : String :=
  if self then Render t else renderList t.children

mutual

/-- Containment of a comment with the given Data in the part of the tree
that the serializer walks: the node itself, or, for kinds whose children
are rendered (elements and documents), some child subtree. -/
def containsComment (d : String) : HTree → Bool
  | HTree.node t dd _ cs =>
    (t == HtmlNodeType.CommentNode && dd == d) ||
      ((t == HtmlNodeType.ElementNode || t == HtmlNodeType.DocumentNode) &&
        containsCommentList d cs)

/-- Containment of a comment in a forest. -/
def containsCommentList (d : String) : List HTree → Bool
  | [] => false
  | c :: cs => containsComment d c || containsCommentList d cs

end

/-- Occurrence of the character list a inside l, as a contiguous run. -/
def occursAux (a : List Char) : List Char → Bool
  | [] => a.isEmpty
  | c :: rest => a.isPrefixOf (c :: rest) || occursAux a rest

/-- Occurrence of the string a inside the string b. -/
def strOccurs (a b : String) : Bool :=
  occursAux a.data b.data

/-- The header fragment of the repository test sample: an element header
whose children are a comment Logo and an h1 element, with the surrounding
whitespace text nodes. -/
def exHeader : HTree :=
  HTree.node HtmlNodeType.ElementNode "header" []
    [ HTree.node HtmlNodeType.TextNode "\n\t" [] [],
      HTree.node HtmlNodeType.CommentNode " Logo " [] [],
      HTree.node HtmlNodeType.TextNode "\n   " [] [],
      HTree.node HtmlNodeType.ElementNode "h1" []
        [HTree.node HtmlNodeType.TextNode "City Gallery" [] []],
      HTree.node HtmlNodeType.TextNode "\n" [] [] ]

/-- Iterates MoveToNextAttribute, keeping the state after each call. -/
def iterNextAttr (doc : Doc) (h : NodeNavigator) : Nat → NodeNavigator
  | 0 => h
  | j + 1 => (MoveToNextAttribute doc (iterNextAttr doc h j)).1

/-- Reachability along PrevSibling pointers: the second node is the first
node or lies further along its chain of preceding siblings. -/
inductive PrevReaches (doc : Doc) : Nat → Nat → Prop where
  | refl (c : Nat) : PrevReaches doc c c
  | step {a b c : Nat} : prevStep doc a = some b → PrevReaches doc b c →
      PrevReaches doc a c

/-- The collection loop of Find: for every position the engine iterator
yields, the facade records Current, that is the curr pointer, discarding
the attribute index. The engine itself is the external xpath collaborator,
so the sequence of yielded positions is left abstract. -/
def collectMatches : List NodeNavigator → List Nat
  | [] => []
  | t :: ts => Current t :: collectMatches ts

/-- The collection step of FindOne: the curr pointer of the first yielded
position, if any. -/
def findOneMatch : List NodeNavigator → Option Nat
  | [] => none
  | t :: _ => some (Current t)

/-- The loop of FindEach: pairs a running zero-based index with the curr
pointer of each yielded position, as handed to the callback. -/
def findEachAux : Nat → List NodeNavigator → List (Nat × Nat)
  | _, [] => []
  | i, t :: ts => (i, Current t) :: findEachAux (i + 1) ts

/-- Arena holding one node of every html kind, for exercising the NodeType
classification: indices 0..6 are comment, text, document, element, doctype,
error, raw; the element carries one attribute. -/
def kindDoc : Doc :=
  [ { type := HtmlNodeType.CommentNode, data := "c", attr := [],
      parent := none, firstChild := none, nextSibling := none,
      prevSibling := none },
    { type := HtmlNodeType.TextNode, data := "t", attr := [],
      parent := none, firstChild := none, nextSibling := none,
      prevSibling := none },
    { type := HtmlNodeType.DocumentNode, data := "", attr := [],
      parent := none, firstChild := none, nextSibling := none,
      prevSibling := none },
    { type := HtmlNodeType.ElementNode, data := "e",
      attr := [{ key := "k", val := "v" }],
      parent := none, firstChild := none, nextSibling := none,
      prevSibling := none },
    { type := HtmlNodeType.DoctypeNode, data := "html", attr := [],
      parent := none, firstChild := none, nextSibling := none,
      prevSibling := none },
    { type := HtmlNodeType.ErrorNode, data := "", attr := [],
      parent := none, firstChild := none, nextSibling := none,
      prevSibling := none },
    { type := HtmlNodeType.RawNode, data := "", attr := [],
      parent := none, firstChild := none, nextSibling := none,
      prevSibling := none } ]

/-!
Theorems. Helper lemmas come first, the claim theorems follow.
-/

theorem navigator_eta (h : NodeNavigator) (ha : h.attr = -1) :
    { root := h.root, curr := h.curr, attr := -1 : NodeNavigator } = h := by
  cases h
  simp_all

theorem applyOp_preserves (doc : Doc) (op : NavOp) (h : NodeNavigator)
    (hclean : AttrClean doc) (hop : op ≠ NavOp.toRoot)
    (h1 : -1 ≤ h.attr) (h2 : Inv doc h) :
    -1 ≤ (applyOp doc op h).attr ∧ Inv doc (applyOp doc op h) := by
  cases op with
  | toRoot => exact absurd rfl hop
  | toParent =>
      simp only [applyOp, MoveToParent]
      split
      · exact ⟨by simp, by intro hc; simp at hc⟩
      · rename_i hattr
        push_neg at hattr
        split
        · refine ⟨by simpa using h1, ?_⟩
          intro hc
          simp at hc
          exact absurd hattr hc
        · exact ⟨h1, h2⟩
  | toNextAttribute =>
      simp only [applyOp, MoveToNextAttribute]
      split
      · exact ⟨h1, h2⟩
      · rename_i n hn
        split
        · exact ⟨h1, h2⟩
        · rename_i hlt
          push_neg at hlt
          refine ⟨by simp; omega, ?_⟩
          intro _
          simp only [nodeTypeAt, hn, Option.map_some]
          have hne : n.attr ≠ [] := by
            intro hnil
            rw [hnil] at hlt
            simp at hlt
            omega
          have := hclean n (List.getElem?_mem hn) hne
          simp [this]
  | toChild =>
      simp only [applyOp, MoveToChild]
      split
      · exact ⟨h1, h2⟩
      · rename_i hattr
        push_neg at hattr
        split
        · refine ⟨by simpa using h1, ?_⟩
          intro hc
          simp at hc
          exact absurd hattr hc
        · exact ⟨h1, h2⟩
  | toFirst =>
      simp only [applyOp, MoveToFirst]
      split
      · exact ⟨h1, h2⟩
      · rename_i hcond
        push_neg at hcond
        refine ⟨by simpa using h1, ?_⟩
        intro hc
        simp at hc
        exact absurd hcond.1 hc
  | toNext =>
      simp only [applyOp, MoveToNext]
      split
      · exact ⟨h1, h2⟩
      · rename_i hattr
        push_neg at hattr
        split
        · refine ⟨by simpa using h1, ?_⟩
          intro hc
          simp at hc
          exact absurd hattr hc
        · exact ⟨h1, h2⟩
  | toPrevious =>
      simp only [applyOp, MoveToPrevious]
      split
      · exact ⟨h1, h2⟩
      · rename_i hattr
        push_neg at hattr
        split
        · refine ⟨by simpa using h1, ?_⟩
          intro hc
          simp at hc
          exact absurd hattr hc
        · exact ⟨h1, h2⟩

theorem runOps_preserves (doc : Doc) (ops : List NavOp)
    (hclean : AttrClean doc) (hops : ∀ op ∈ ops, op ≠ NavOp.toRoot)
    (h : NodeNavigator) (h1 : -1 ≤ h.attr) (h2 : Inv doc h) :
    -1 ≤ (runOps doc ops h).attr ∧ Inv doc (runOps doc ops h) := by
  induction ops generalizing h with
  | nil => exact ⟨h1, h2⟩
  | cons op rest ih =>
      have hstep := applyOp_preserves doc op h hclean
        (hops op (by simp)) h1 h2
      exact ih (fun o ho => hops o (by simp [ho])) _ hstep.1 hstep.2

/-- C1, counterexample. The claim says MoveToRoot sets current to the root
and resets the attribute index to -1. Starting from a fresh navigator on
the document node of exDoc, moving to the child element b and onto its
first attribute is a reachable state with attr = 0; MoveToRoot there keeps
attr = 0, so the conjunction the claim states is false. -/
theorem C1_moveToRoot_counterexample :
    ¬ ((MoveToRoot (runOps exDoc [NavOp.toChild, NavOp.toNextAttribute]
          (CreateXPathNavigator 0))).curr =
        (runOps exDoc [NavOp.toChild, NavOp.toNextAttribute]
          (CreateXPathNavigator 0)).root ∧
      (MoveToRoot (runOps exDoc [NavOp.toChild, NavOp.toNextAttribute]
          (CreateXPathNavigator 0))).attr = -1) := by
  decide

/-- C1, amended. MoveToRoot sets current to the root of the cursor and
always succeeds (it has no failure result), but it leaves the attribute
index unchanged rather than resetting it to -1. -/
theorem C1_moveToRoot_amended (h : NodeNavigator) :
    (MoveToRoot h).curr = h.root ∧ (MoveToRoot h).attr = h.attr ∧
      (MoveToRoot h).root = h.root := by
  exact ⟨rfl, rfl, rfl⟩

/-- C2, counterexample. The invariant that attr is non -1 only while the
current node is an element is not preserved by every operation: from a
fresh navigator on the document node of exDoc, the reachable operation
sequence child, next-attribute, root ends with curr on the document node
and attr = 0. -/
theorem C2_invariant_counterexample :
    ¬ Inv exDoc (runOps exDoc
        [NavOp.toChild, NavOp.toNextAttribute, NavOp.toRoot]
        (CreateXPathNavigator 0)) := by
  decide

/-- C2, amended. Every navigator operation except MoveToRoot preserves the
invariant on documents where only elements carry attributes: any operation
sequence avoiding MoveToRoot, run from a freshly constructed navigator,
ends in a state satisfying the invariant; and MoveTo preserves the
invariant when both cursors satisfy it. MoveToRoot itself can break the
invariant, as the counterexample shows, because it keeps the attribute
index while jumping to a possibly non-element root. -/
theorem C2_invariant_preserved (doc : Doc) (r : Nat) (ops : List NavOp)
    (h other : NodeNavigator)
    (hclean : AttrClean doc) (hops : ∀ op ∈ ops, op ≠ NavOp.toRoot)
    (hh : Inv doc h) (hother : Inv doc other) :
    Inv doc (runOps doc ops (CreateXPathNavigator r)) ∧
      Inv doc (MoveTo h other).1 := by
  constructor
  · exact (runOps_preserves doc ops hclean hops (CreateXPathNavigator r)
      (by simp [CreateXPathNavigator])
      (by intro hc; simp [CreateXPathNavigator] at hc)).2
  · unfold MoveTo
    split
    · exact hh
    · intro hc
      simp only at hc
      exact hother hc

/-- C2, witness for the amended theorem: a concrete run avoiding MoveToRoot
on exDoc satisfies the invariant, and a concrete MoveTo preserves it. -/
theorem C2_invariant_preserved_witness :
    Inv exDoc (runOps exDoc [NavOp.toChild, NavOp.toNextAttribute]
        (CreateXPathNavigator 0)) ∧
      Inv exDoc (MoveTo (CreateXPathNavigator 0)
        { root := 0, curr := 1, attr := 0 }).1 :=
  C2_invariant_preserved exDoc 0 [NavOp.toChild, NavOp.toNextAttribute]
    (CreateXPathNavigator 0) { root := 0, curr := 1, attr := 0 }
    (by decide) (by decide) (by decide) (by decide)

/-- C3. MoveToParent: with a pending attribute selection it clears attr to
-1 and succeeds without touching current, so from an attribute of element e
it lands exactly on e; otherwise it follows the Parent pointer when one
exists and succeeds; otherwise it fails and leaves the cursor unchanged. -/
theorem C3_moveToParent (doc : Doc) (h : NodeNavigator) (n : HtmlNode)
    (p : Nat) (hn : doc[h.curr]? = some n) :
    (h.attr ≠ -1 → MoveToParent doc h = ({ h with attr := -1 }, true)) ∧
    (h.attr = -1 → n.parent = some p →
      MoveToParent doc h = ({ h with curr := p }, true)) ∧
    (h.attr = -1 → n.parent = none → MoveToParent doc h = (h, false)) := by
  refine ⟨?_, ?_, ?_⟩
  · intro ha
    simp [MoveToParent, ha]
  · intro ha hp
    simp [MoveToParent, ha, hn, hp]
  · intro ha hp
    simp [MoveToParent, ha, hn, hp]

/-- C3, witness on exDoc: from the attribute of element b the cursor
returns exactly to b; from b it moves to the document node; from the
document node it fails unchanged. -/
theorem C3_moveToParent_witness :
    MoveToParent exDoc { root := 0, curr := 1, attr := 0 } =
      ({ root := 0, curr := 1, attr := -1 }, true) ∧
    MoveToParent exDoc { root := 0, curr := 1, attr := -1 } =
      ({ root := 0, curr := 0, attr := -1 }, true) ∧
    MoveToParent exDoc { root := 0, curr := 0, attr := -1 } =
      ({ root := 0, curr := 0, attr := -1 }, false) := by
  refine ⟨?_, ?_, ?_⟩
  · exact (C3_moveToParent exDoc { root := 0, curr := 1, attr := 0 }
      (exDoc.get ⟨1, by decide⟩) 0 (by decide)).1 (by decide)
  · exact (C3_moveToParent exDoc { root := 0, curr := 1, attr := -1 }
      { type := HtmlNodeType.ElementNode, data := "b",
        attr := [{ key := "attr", val := "1" }],
        parent := some 0, firstChild := none, nextSibling := none,
        prevSibling := none } 0 (by decide)).2.1 (by decide) (by decide)
  · exact (C3_moveToParent exDoc { root := 0, curr := 0, attr := -1 }
      { type := HtmlNodeType.DocumentNode, data := "", attr := [],
        parent := none, firstChild := some 1, nextSibling := none,
        prevSibling := none } 0 (by decide)).2.2 (by decide) (by decide)

theorem iterNextAttr_eq (doc : Doc) (h : NodeNavigator) (n : HtmlNode)
    (hn : doc[h.curr]? = some n) (ha : h.attr = -1) :
    ∀ j, j ≤ n.attr.length →
      iterNextAttr doc h j = { h with attr := (j : Int) - 1 } := by
  intro j
  induction j with
  | zero =>
      intro _
      simp only [iterNextAttr, Nat.cast_zero, zero_sub]
      cases h
      simp_all
  | succ j ih =>
      intro hj
      have hstate := ih (Nat.le_of_succ_le hj)
      simp only [iterNextAttr, hstate, MoveToNextAttribute]
      have hcurr : ({ h with attr := (j : Int) - 1 } : NodeNavigator).curr
          = h.curr := rfl
      rw [hcurr, hn]
      have hlt : ¬ ((j : Int) - 1 ≥ (n.attr.length : Int) - 1) := by
        simp only [ge_iff_le, not_le]
        omega
      simp only [hlt, if_false]
      congr 1
      omega

/-- C4. MoveToNextAttribute on a cursor sitting on a node with k attributes
and attr = -1: the first k successive calls succeed, each incrementing attr
by one without moving current, the call after the k-th fails and leaves the
state unchanged; and in general a call succeeds exactly when attr is below
the attribute count minus one. -/
theorem C4_moveToNextAttribute (doc : Doc) (h h2 : NodeNavigator)
    (n n2 : HtmlNode) (j : Nat)
    (hn : doc[h.curr]? = some n) (ha : h.attr = -1)
    (hn2 : doc[h2.curr]? = some n2) :
    (j ≤ n.attr.length →
      iterNextAttr doc h j = { h with attr := (j : Int) - 1 }) ∧
    (j < n.attr.length →
      (MoveToNextAttribute doc (iterNextAttr doc h j)).2 = true) ∧
    (MoveToNextAttribute doc (iterNextAttr doc h n.attr.length)
      = (iterNextAttr doc h n.attr.length, false)) ∧
    ((MoveToNextAttribute doc h2).2 = true ↔
      h2.attr < (n2.attr.length : Int) - 1) := by
  refine ⟨iterNextAttr_eq doc h n hn ha j, ?_, ?_, ?_⟩
  · intro hj
    have hstate := iterNextAttr_eq doc h n hn ha j (Nat.le_of_lt hj)
    simp only [hstate, MoveToNextAttribute]
    have hcurr : ({ h with attr := (j : Int) - 1 } : NodeNavigator).curr
        = h.curr := rfl
    rw [hcurr, hn]
    have hlt : ¬ ((j : Int) - 1 ≥ (n.attr.length : Int) - 1) := by
      simp only [ge_iff_le, not_le]
      omega
    simp [hlt]
  · have hstate := iterNextAttr_eq doc h n hn ha n.attr.length (le_refl _)
    simp only [hstate, MoveToNextAttribute]
    have hcurr : ({ h with attr := (n.attr.length : Int) - 1 }
        : NodeNavigator).curr = h.curr := rfl
    rw [hcurr, hn]
    simp
  · simp only [MoveToNextAttribute, hn2]
    constructor
    · intro hb
      by_contra hlt
      simp only [not_lt] at hlt
      simp [ge_iff_le, hlt] at hb
    · intro hlt
      have hge : ¬ (h2.attr ≥ (n2.attr.length : Int) - 1) := by
        simp only [ge_iff_le, not_le]
        omega
      simp [hge]

/-- C4, witness on exDoc: element b has one attribute, so from attr = -1
one call succeeds reaching attr = 0, the second call fails unchanged, and
the success condition evaluates as the bound states. -/
theorem C4_moveToNextAttribute_witness :
    (iterNextAttr exDoc { root := 0, curr := 1, attr := -1 } 1 =
      { root := 0, curr := 1, attr := 0 }) ∧
    ((MoveToNextAttribute exDoc
        (iterNextAttr exDoc { root := 0, curr := 1, attr := -1 } 0)).2
      = true) ∧
    (MoveToNextAttribute exDoc
        (iterNextAttr exDoc { root := 0, curr := 1, attr := -1 } 1)
      = (iterNextAttr exDoc { root := 0, curr := 1, attr := -1 } 1, false)) ∧
    ((MoveToNextAttribute exDoc { root := 0, curr := 1, attr := 0 }).2 = true
      ↔ (0 : Int) < 0) := by
  have hmain := C4_moveToNextAttribute exDoc
    { root := 0, curr := 1, attr := -1 } { root := 0, curr := 1, attr := 0 }
    { type := HtmlNodeType.ElementNode, data := "b",
      attr := [{ key := "attr", val := "1" }],
      parent := some 0, firstChild := none, nextSibling := none,
      prevSibling := none }
    { type := HtmlNodeType.ElementNode, data := "b",
      attr := [{ key := "attr", val := "1" }],
      parent := some 0, firstChild := none, nextSibling := none,
      prevSibling := none }
    1 (by decide) (by decide) (by decide)
  refine ⟨?_, ?_, ?_, ?_⟩
  · have := hmain.1 (by decide)
    simpa using this
  · have hmain0 := C4_moveToNextAttribute exDoc
      { root := 0, curr := 1, attr := -1 } { root := 0, curr := 1, attr := 0 }
      { type := HtmlNodeType.ElementNode, data := "b",
        attr := [{ key := "attr", val := "1" }],
        parent := some 0, firstChild := none, nextSibling := none,
        prevSibling := none }
      { type := HtmlNodeType.ElementNode, data := "b",
        attr := [{ key := "attr", val := "1" }],
        parent := some 0, firstChild := none, nextSibling := none,
        prevSibling := none }
      0 (by decide) (by decide) (by decide)
    exact hmain0.2.1 (by decide)
  · have := hmain.2.2.1
    simpa using this
  · have := hmain.2.2.2
    simpa using this

/-- C5. NodeType classification: Comment maps to Comment, Text to Text,
Document to Root, Doctype to Root, Element to Attribute when attr is not -1
and to Element otherwise; a node of any kind outside these five makes the
classification panic (modelled as none) instead of returning a category. -/
theorem C5_nodeType (doc : Doc) (h : NodeNavigator) (n : HtmlNode)
    (hn : doc[h.curr]? = some n) :
    (n.type = HtmlNodeType.CommentNode →
      NodeType doc h = some XNodeType.CommentNode) ∧
    (n.type = HtmlNodeType.TextNode →
      NodeType doc h = some XNodeType.TextNode) ∧
    (n.type = HtmlNodeType.DocumentNode →
      NodeType doc h = some XNodeType.RootNode) ∧
    (n.type = HtmlNodeType.DoctypeNode →
      NodeType doc h = some XNodeType.RootNode) ∧
    (n.type = HtmlNodeType.ElementNode → h.attr ≠ -1 →
      NodeType doc h = some XNodeType.AttributeNode) ∧
    (n.type = HtmlNodeType.ElementNode → h.attr = -1 →
      NodeType doc h = some XNodeType.ElementNode) ∧
    (n.type = HtmlNodeType.ErrorNode ∨ n.type = HtmlNodeType.RawNode →
      NodeType doc h = none) := by
  refine ⟨?_, ?_, ?_, ?_, ?_, ?_, ?_⟩ <;> intro ht
  · simp [NodeType, hn, ht]
  · simp [NodeType, hn, ht]
  · simp [NodeType, hn, ht]
  · simp [NodeType, hn, ht]
  · intro ha
    simp [NodeType, hn, ht, ha]
  · intro ha
    simp [NodeType, hn, ht, ha]
  · cases ht with
    | inl he => simp [NodeType, hn, he]
    | inr hr => simp [NodeType, hn, hr]

/-- C5, witness on kindDoc, one navigator per node kind, the element both
with and without a pending attribute index. -/
theorem C5_nodeType_witness :
    NodeType kindDoc (CreateXPathNavigator 0) = some XNodeType.CommentNode ∧
    NodeType kindDoc (CreateXPathNavigator 1) = some XNodeType.TextNode ∧
    NodeType kindDoc (CreateXPathNavigator 2) = some XNodeType.RootNode ∧
    NodeType kindDoc (CreateXPathNavigator 4) = some XNodeType.RootNode ∧
    NodeType kindDoc { root := 3, curr := 3, attr := 0 } =
      some XNodeType.AttributeNode ∧
    NodeType kindDoc (CreateXPathNavigator 3) = some XNodeType.ElementNode ∧
    NodeType kindDoc (CreateXPathNavigator 5) = none ∧
    NodeType kindDoc (CreateXPathNavigator 6) = none := by
  refine ⟨?_, ?_, ?_, ?_, ?_, ?_, ?_, ?_⟩
  · exact (C5_nodeType kindDoc (CreateXPathNavigator 0)
      (kindDoc.get ⟨0, by decide⟩) (by decide)).1 (by decide)
  · exact (C5_nodeType kindDoc (CreateXPathNavigator 1)
      (kindDoc.get ⟨1, by decide⟩) (by decide)).2.1 (by decide)
  · exact (C5_nodeType kindDoc (CreateXPathNavigator 2)
      (kindDoc.get ⟨2, by decide⟩) (by decide)).2.2.1 (by decide)
  · exact (C5_nodeType kindDoc (CreateXPathNavigator 4)
      (kindDoc.get ⟨4, by decide⟩) (by decide)).2.2.2.1 (by decide)
  · exact (C5_nodeType kindDoc { root := 3, curr := 3, attr := 0 }
      (kindDoc.get ⟨3, by decide⟩) (by decide)).2.2.2.2.1 (by decide)
      (by decide)
  · exact (C5_nodeType kindDoc (CreateXPathNavigator 3)
      (kindDoc.get ⟨3, by decide⟩) (by decide)).2.2.2.2.2.1 (by decide)
      (by decide)
  · exact (C5_nodeType kindDoc (CreateXPathNavigator 5)
      (kindDoc.get ⟨5, by decide⟩) (by decide)).2.2.2.2.2.2
      (Or.inl (by decide))
  · exact (C5_nodeType kindDoc (CreateXPathNavigator 6)
      (kindDoc.get ⟨6, by decide⟩) (by decide)).2.2.2.2.2.2
      (Or.inr (by decide))

/-- C6. MoveTo succeeds exactly when the other cursor shares the same root
pointer (the Go type assertion always holds in this embedding, where every
cursor is a NodeNavigator); on success the receiving cursor adopts curr and
attr of the other cursor while keeping its root, and on failure, in
particular whenever the two cursors were constructed over different roots,
the receiving cursor is left completely unchanged. -/
theorem C6_moveTo (h other : NodeNavigator) :
    ((MoveTo h other).2 = true ↔ other.root = h.root) ∧
    (other.root = h.root →
      MoveTo h other =
        ({ root := h.root, curr := other.curr, attr := other.attr }, true)) ∧
    (other.root ≠ h.root → MoveTo h other = (h, false)) := by
  refine ⟨?_, ?_, ?_⟩
  · unfold MoveTo
    split
    · rename_i hne
      simp [hne]
    · rename_i hne
      push_neg at hne
      simp [hne]
  · intro heq
    simp [MoveTo, heq]
  · intro hne
    simp [MoveTo, hne]

/-- C6, witness: two cursors over root 0 jump successfully adopting curr
and attr; a cursor over root 1 is rejected and unchanged. -/
theorem C6_moveTo_witness :
    MoveTo (CreateXPathNavigator 0) { root := 0, curr := 1, attr := 0 } =
      ({ root := 0, curr := 1, attr := 0 }, true) ∧
    MoveTo (CreateXPathNavigator 0) (CreateXPathNavigator 1) =
      (CreateXPathNavigator 0, false) := by
  constructor
  · exact (C6_moveTo (CreateXPathNavigator 0)
      { root := 0, curr := 1, attr := 0 }).2.1 (by decide)
  · exact (C6_moveTo (CreateXPathNavigator 0)
      (CreateXPathNavigator 1)).2.2 (by decide)

theorem firstSiblingAux_of_none (doc : Doc) (fuel c : Nat)
    (hc : prevStep doc c = none) : firstSiblingAux doc fuel c = c := by
  cases fuel with
  | zero => rfl
  | succ fuel => simp [firstSiblingAux, hc]

theorem firstSiblingAux_reaches (doc : Doc) (fuel c : Nat) :
    PrevReaches doc c (firstSiblingAux doc fuel c) := by
  induction fuel generalizing c with
  | zero => exact PrevReaches.refl c
  | succ fuel ih =>
      simp only [firstSiblingAux]
      cases hp : prevStep doc c with
      | none => exact PrevReaches.refl c
      | some p => exact PrevReaches.step hp (ih p)

/-- C9. MoveToFirst fails as a no-op when attr is not -1 or the current
node has no preceding sibling; otherwise it succeeds and lands on the
furthest preceding sibling, the node reached by walking PrevSibling
pointers to exhaustion, which itself has no preceding sibling; and running
MoveToFirst twice leaves the cursor exactly where one run leaves it. The
hypothesis states that the walk bounded by the arena size reaches the end
of the chain, which holds for every genuine tree, where sibling chains are
acyclic and shorter than the arena. -/
theorem C9_moveToFirst (doc : Doc) (h : NodeNavigator)
    (hwf : prevStep doc (firstSiblingAux doc doc.length h.curr) = none) :
    (h.attr ≠ -1 ∨ prevStep doc h.curr = none →
      MoveToFirst doc h = (h, false)) ∧
    (h.attr = -1 → prevStep doc h.curr ≠ none →
      MoveToFirst doc h =
        ({ h with curr := firstSiblingAux doc doc.length h.curr }, true) ∧
      PrevReaches doc h.curr (MoveToFirst doc h).1.curr ∧
      prevStep doc (MoveToFirst doc h).1.curr = none) ∧
    (MoveToFirst doc (MoveToFirst doc h).1).1 = (MoveToFirst doc h).1 := by
  refine ⟨?_, ?_, ?_⟩
  · intro hc
    simp [MoveToFirst, hc]
  · intro ha hp
    have hcond : ¬ (h.attr ≠ -1 ∨ prevStep doc h.curr = none) := by
      push_neg
      exact ⟨ha, hp⟩
    refine ⟨by simp [MoveToFirst, hcond], ?_, ?_⟩
    · simp only [MoveToFirst, hcond, if_false]
      exact firstSiblingAux_reaches doc doc.length h.curr
    · simp only [MoveToFirst, hcond, if_false]
      exact hwf
  · by_cases hc : h.attr ≠ -1 ∨ prevStep doc h.curr = none
    · simp [MoveToFirst, hc]
    · have hfirst : MoveToFirst doc h =
          ({ h with curr := firstSiblingAux doc doc.length h.curr }, true) := by
        simp [MoveToFirst, hc]
      push_neg at hc
      rw [hfirst]
      have hc2 : ({ h with curr := firstSiblingAux doc doc.length h.curr }
          : NodeNavigator).attr ≠ -1 ∨
          prevStep doc ({ h with
            curr := firstSiblingAux doc doc.length h.curr }
              : NodeNavigator).curr = none := Or.inr hwf
      simp [MoveToFirst, hc2]

/-- C9, witness on the three-node sibling chain of sibDoc: from the last
sibling the cursor lands on the first sibling, which has no preceding
sibling, and a second MoveToFirst leaves it there; from an attribute
position the move fails unchanged. -/
theorem C9_moveToFirst_witness :
    (MoveToFirst sibDoc { root := 0, curr := 3, attr := -1 } =
      ({ root := 0, curr := 1, attr := -1 }, true)) ∧
    PrevReaches sibDoc 3
      (MoveToFirst sibDoc { root := 0, curr := 3, attr := -1 }).1.curr ∧
    (MoveToFirst sibDoc
        (MoveToFirst sibDoc { root := 0, curr := 3, attr := -1 }).1).1 =
      (MoveToFirst sibDoc { root := 0, curr := 3, attr := -1 }).1 ∧
    (MoveToFirst sibDoc { root := 0, curr := 3, attr := 0 } =
      ({ root := 0, curr := 3, attr := 0 }, false)) := by
  have hmain := C9_moveToFirst sibDoc { root := 0, curr := 3, attr := -1 }
    (by decide)
  have hattr := C9_moveToFirst sibDoc { root := 0, curr := 3, attr := 0 }
    (by decide)
  refine ⟨?_, ?_, ?_, ?_⟩
  · have := (hmain.2.1 (by decide) (by decide)).1
    simpa using this
  · exact (hmain.2.1 (by decide) (by decide)).2.1
  · exact hmain.2.2
  · exact hattr.1 (Or.inl (by decide))

theorem concatStrings_append (a b : List String) :
    concatStrings (a ++ b) = concatStrings a ++ concatStrings b := by
  induction a with
  | nil => simp [concatStrings]
  | cons s rest ih => simp [concatStrings, ih, String.append_assoc]

mutual

theorem innerText_eq_concat (t : HTree) :
    InnerText t = concatStrings (collectText t) := by
  cases t with
  | node ty d a cs =>
      cases ty <;>
        simp [InnerText, collectText, concatStrings,
          innerTextList_eq_concat cs]

theorem innerTextList_eq_concat (cs : List HTree) :
    innerTextList cs = concatStrings (collectTextList cs) := by
  cases cs with
  | nil => rfl
  | cons c rest =>
      simp [innerTextList, collectTextList, concatStrings_append,
        innerText_eq_concat c, innerTextList_eq_concat rest]

end

mutual

theorem innerText_prune (t : HTree) :
    InnerText (pruneComments t) = InnerText t := by
  cases t with
  | node ty d a cs =>
      cases ty <;>
        simp [pruneComments, InnerText, innerTextList_prune cs]

theorem innerTextList_prune (cs : List HTree) :
    innerTextList (pruneList cs) = innerTextList cs := by
  cases cs with
  | nil => rfl
  | cons c rest =>
      by_cases hc : c.isComment
      · have hct : InnerText c = "" := by
          cases c with
          | node ty d a cc =>
              cases ty <;> simp_all [HTree.isComment, InnerText]
        simp [pruneList, hc, innerTextList, hct,
          innerTextList_prune rest, String.empty_append]
      · simp [pruneList, hc, innerTextList, innerText_prune c,
          innerTextList_prune rest]

end

/-- C7. InnerText returns the concatenation, in document order, of the
Data of every Text-kind node of the subtree, descending through elements
without emitting markup and skipping comment nodes with their entire
subtrees; consequently removing every comment subtree from a tree leaves
its extracted text unchanged, so the result never draws on comment
content. -/
theorem C7_innerText (t u : HTree) :
    InnerText t = concatStrings (collectText t) ∧
    InnerText (pruneComments u) = InnerText u :=
  ⟨innerText_eq_concat t, innerText_prune u⟩

theorem isPrefixOf_self_append (a y : List Char) :
    a.isPrefixOf (a ++ y) = true := by
  induction a with
  | nil => simp [List.isPrefixOf]
  | cons c rest ih => simp [List.isPrefixOf, ih]

theorem isPrefixOf_append_right (a l y : List Char)
    (hp : a.isPrefixOf l = true) : a.isPrefixOf (l ++ y) = true := by
  induction a generalizing l with
  | nil => simp [List.isPrefixOf]
  | cons c rest ih =>
      cases l with
      | nil => simp [List.isPrefixOf] at hp
      | cons d l2 =>
          simp only [List.isPrefixOf, Bool.and_eq_true, beq_iff_eq] at hp
          simp only [List.cons_append, List.isPrefixOf, Bool.and_eq_true,
            beq_iff_eq]
          exact ⟨hp.1, ih l2 hp.2⟩

theorem occursAux_nil_left (l : List Char) : occursAux [] l = true := by
  cases l <;> simp [occursAux, List.isPrefixOf, List.isEmpty]

theorem occursAux_self_append (a y : List Char) :
    occursAux a (a ++ y) = true := by
  cases a with
  | nil => exact occursAux_nil_left y
  | cons c rest =>
      simp only [List.cons_append, occursAux, Bool.or_eq_true]
      exact Or.inl (isPrefixOf_self_append (c :: rest) (y := y))

theorem occursAux_append_left (a x l : List Char)
    (hl : occursAux a l = true) : occursAux a (x ++ l) = true := by
  induction x with
  | nil => simpa using hl
  | cons c rest ih =>
      simp only [List.cons_append, occursAux, Bool.or_eq_true]
      exact Or.inr ih

theorem occursAux_append_right (a l y : List Char)
    (hl : occursAux a l = true) : occursAux a (l ++ y) = true := by
  induction l with
  | nil =>
      simp only [occursAux, List.isEmpty_iff] at hl
      subst hl
      exact occursAux_nil_left y
  | cons c rest ih =>
      simp only [occursAux, Bool.or_eq_true] at hl
      simp only [List.cons_append, occursAux, Bool.or_eq_true]
      cases hl with
      | inl hp =>
          exact Or.inl (by
            have := isPrefixOf_append_right a (c :: rest) y hp
            simpa using this)
      | inr ho => exact Or.inr (ih ho)

theorem strOccurs_append_left (a x s : String)
    (hs : strOccurs a s = true) : strOccurs a (x ++ s) = true := by
  unfold strOccurs at hs ⊢
  rw [String.data_append]
  exact occursAux_append_left a.data x.data s.data hs

theorem strOccurs_append_right (a s y : String)
    (hs : strOccurs a s = true) : strOccurs a (s ++ y) = true := by
  unfold strOccurs at hs ⊢
  rw [String.data_append]
  exact occursAux_append_right a.data s.data y.data hs

theorem strOccurs_self_append (a y : String) :
    strOccurs a (a ++ y) = true := by
  unfold strOccurs
  rw [String.data_append]
  exact occursAux_self_append a.data y.data

theorem strOccurs_self (a : String) : strOccurs a a = true := by
  have := strOccurs_self_append a ""
  rwa [String.append_empty] at this

theorem renderList_eq_concat (cs : List HTree) :
    renderList cs = concatStrings (cs.map Render) := by
  induction cs with
  | nil => rfl
  | cons c rest ih => simp [renderList, concatStrings, ih]

mutual

theorem render_contains (d : String) (t : HTree)
    (hc : containsComment d t = true) : strOccurs d (Render t) = true := by
  cases t with
  | node ty dd a cs =>
      simp only [containsComment, Bool.or_eq_true, Bool.and_eq_true,
        beq_iff_eq] at hc
      cases hc with
      | inl hcom =>
          rw [hcom.1, hcom.2]
          simp only [Render]
          exact strOccurs_append_right d ("<!--" ++ d) "-->"
            (strOccurs_append_left d "<!--" d (strOccurs_self d))
      | inr helt =>
          have hlist := renderList_contains d cs helt.2
          cases helt.1 with
          | inl he =>
              rw [he]
              simp only [Render]
              refine strOccurs_append_right d _ ">" ?_
              refine strOccurs_append_right d _ dd ?_
              refine strOccurs_append_right d _ "</" ?_
              exact strOccurs_append_left d
                ("<" ++ dd ++ renderAttrs a ++ ">") (renderList cs) hlist
          | inr hdoc =>
              rw [hdoc]
              simpa [Render] using hlist

theorem renderList_contains (d : String) (cs : List HTree)
    (hc : containsCommentList d cs = true) :
    strOccurs d (renderList cs) = true := by
  cases cs with
  | nil => simp [containsCommentList] at hc
  | cons c rest =>
      simp only [containsCommentList, Bool.or_eq_true] at hc
      cases hc with
      | inl hhead =>
          exact strOccurs_append_right d (Render c) (renderList rest)
            (render_contains d c hhead)
      | inr htail =>
          exact strOccurs_append_left d (Render c) (renderList rest)
            (renderList_contains d rest htail)

end

/-- C8. OutputHTML with self = true serializes the node itself, with
self = false it serializes exactly its children in order; serialization
reproduces comments, so whenever the serialized part of a subtree contains
a comment with Data d, the self = true output contains d, while on the
repository test fragment (a header element holding the comment Logo)
InnerText omits the comment text that OutputHTML keeps. -/
theorem C8_outputHTML (t u : HTree) (d : String)
    (hc : containsComment d t = true) :
    OutputHTML u true = Render u ∧
    OutputHTML u false = concatStrings (u.children.map Render) ∧
    strOccurs d (OutputHTML t true) = true ∧
    strOccurs "Logo" (OutputHTML exHeader true) = true ∧
    strOccurs "Logo" (InnerText exHeader) = false := by
  refine ⟨rfl, ?_, ?_, ?_, ?_⟩
  · simp [OutputHTML, renderList_eq_concat]
  · simpa [OutputHTML] using render_contains d t hc
  · decide
  · decide

/-- C8, witness on the header fragment of the repository test sample, whose
comment has Data " Logo ". -/
theorem C8_outputHTML_witness :
    OutputHTML exHeader false =
      concatStrings (exHeader.children.map Render) ∧
    strOccurs " Logo " (OutputHTML exHeader true) = true ∧
    strOccurs "Logo" (InnerText exHeader) = false := by
  have hmain := C8_outputHTML exHeader exHeader " Logo " (by decide)
  exact ⟨hmain.2.1, hmain.2.2.1, hmain.2.2.2.2⟩

theorem collectMatches_eq_map (ps : List NodeNavigator) :
    collectMatches ps = ps.map Current := by
  induction ps with
  | nil => rfl
  | cons t ts ih => simp [collectMatches, ih]

theorem findEachAux_map_snd (i : Nat) (ps : List NodeNavigator) :
    List.map Prod.snd (findEachAux i ps) = collectMatches ps := by
  induction ps generalizing i with
  | nil => rfl
  | cons t ts ih => simp [findEachAux, collectMatches, ih]

/-- C10. The facade loops of Find, FindOne and FindEach all unwrap each
engine-produced position by reading only Current, the curr pointer,
discarding the attribute index: the collected list is the pointwise image
of the positions under Current, FindOne returns the head of that list and
FindEach hands the callback the same nodes; hence a position denoting an
attribute pseudo-node (attr not -1, element current under the cursor
invariant) contributes the owning element node, never a separate attribute
node. The engine is the external xpath collaborator, so the sequence of
positions it yields is left abstract. -/
theorem C10_find_unwraps (doc : Doc) (ps : List NodeNavigator)
    (p : NodeNavigator) (i : Nat)
    (hip : ps[i]? = some p) (hInv : Inv doc p) (hattr : p.attr ≠ -1) :
    collectMatches ps = ps.map Current ∧
    findOneMatch ps = (collectMatches ps).head? ∧
    List.map Prod.snd (findEachAux 0 ps) = collectMatches ps ∧
    (collectMatches ps)[i]? = some p.curr ∧
    nodeTypeAt doc p.curr = some HtmlNodeType.ElementNode := by
  refine ⟨collectMatches_eq_map ps, ?_, findEachAux_map_snd 0 ps, ?_, ?_⟩
  · cases ps with
    | nil => rfl
    | cons t ts => rfl
  · rw [collectMatches_eq_map]
    simp [List.getElem?_map, hip, Current]
  · exact hInv hattr

/-- C10, witness: a single engine position denoting the attribute of
element b of exDoc is unwrapped to the element node 1 itself. -/
theorem C10_find_unwraps_witness :
    collectMatches [{ root := 0, curr := 1, attr := 0 }] =
      List.map Current [{ root := 0, curr := 1, attr := 0 }] ∧
    findOneMatch [{ root := 0, curr := 1, attr := 0 }] =
      (collectMatches [{ root := 0, curr := 1, attr := 0 }]).head? ∧
    List.map Prod.snd (findEachAux 0 [{ root := 0, curr := 1, attr := 0 }]) =
      collectMatches [{ root := 0, curr := 1, attr := 0 }] ∧
    (collectMatches [{ root := 0, curr := 1, attr := 0 }])[0]? = some 1 ∧
    nodeTypeAt exDoc 1 = some HtmlNodeType.ElementNode :=
  C10_find_unwraps exDoc [{ root := 0, curr := 1, attr := 0 }]
    { root := 0, curr := 1, attr := 0 } 0 (by decide) (by decide) (by decide)

end Htmlquery
